import Mathlib

/-!
# RIs-Calib utilities: a shallow embedding and its verification

Embedded source files:
* `src/ris_calib/include/util/utils.hpp` (numeric utilities of namespace `ns_ris`)
* `src/ris_calib/include/sensor/imu_data_loader.h` (IMU loader interface)
* `src/ris_calib/include/sensor/radar_data_loader.h` (radar loader interface)

Scalars (`Scale`, `ScaleType`, `double`) are elements of a field `K` (exact arithmetic);
`Eigen::Matrix<Scale, Rows, Cols>` is `Matrix (Fin r) (Fin c) K`; `std::vector` is `List`.
-/

namespace ns_ris

/-! ## Failures and containers -/

/-- Exceptions raised inside the numeric utilities: `std::out_of_range`, thrown by
`std::vector::at`. -/
inductive Fault where
  | outOfRange
  deriving DecidableEq, Repr

/-- `data.at(i)`: the element at index `i`, or `std::out_of_range` when `i` is not below
`data.size()`. -/
def vecAt {α : Type} (data : List α) (i : Nat) : Except Fault α :=
  match data[i]? with
  | some x => Except.ok x
  | none => Except.error Fault.outOfRange

/-- Counted loop `for (int i = start; i < bound; ++i) body`, with a loop-invariant bound
and a body that does not write `i`: `forLoop body n i s` runs the `n` remaining iterations
from counter `i` and state `s`; an exception thrown by the body leaves the loop. -/
def forLoop {σ : Type} (body : Nat → σ → Except Fault σ) : Nat → Nat → σ → Except Fault σ
  | 0, _, s => Except.ok s
  | n + 1, i, s =>
    match body i s with
    | Except.error e => Except.error e
    | Except.ok s1 => forLoop body n (i + 1) s1

/-- `data.size() - 1` computed in `size_t` (unsigned, 64 bit): the subtraction wraps
around to `2 ^ 64 - 1` when the vector is empty. -/
def sizeMinusOne (n : Nat) : Nat :=
  if n = 0 then 2 ^ 64 - 1 else n - 1

/-! ## Trapezoidal integration (`utils.hpp`, lines 69-95) -/

section Integration

variable {K : Type} [Field K] {r c : Nat}

/-- Eigen's `matrix * scalar`: every coefficient is multiplied by the scalar. -/
def mulScalar (M : Matrix (Fin r) (Fin c) K) (s : K) : Matrix (Fin r) (Fin c) K :=
  fun i j => M i j * s

/-- The summand `(di.second + dj.second) * (dj.first - di.first) * Scale(0.5)`. -/
def trapTerm (di dj : K × Matrix (Fin r) (Fin c) K) : Matrix (Fin r) (Fin c) K :=
  mulScalar (mulScalar (di.2 + dj.2) (dj.1 - di.1)) (1 / 2)

/-- Body of the loop of `TrapIntegrationOnce` (lines 74-77). -/
def onceBody (data : List (K × Matrix (Fin r) (Fin c) K)) (i : Nat)
    (sum : Matrix (Fin r) (Fin c) K) : Except Fault (Matrix (Fin r) (Fin c) K) := do
  let j := i + 1
  let di ← vecAt data i
  let dj ← vecAt data j
  pure (sum + trapTerm di dj)

/-- `TrapIntegrationOnce` (lines 69-80). The loop bound `static_cast<int>(data.size()) - 1`
is a signed `int` (the length of the series lies in the `int` range), so it is `-1` for the
empty series and the loop body is not entered. -/
def TrapIntegrationOnce (data : List (K × Matrix (Fin r) (Fin c) K)) :
    Except Fault (Matrix (Fin r) (Fin c) K) :=
  forLoop (onceBody data) (((data.length : Int) - 1).toNat) 0 0

/-- Body of the loop of `TrapIntegrationTwice` (lines 88-92); the loop state is the pair
`(dataOnce, sum)`. -/
def twiceBody (data : List (K × Matrix (Fin r) (Fin c) K)) (i : Nat)
    (st : List (K × Matrix (Fin r) (Fin c) K) × Matrix (Fin r) (Fin c) K) :
    Except Fault (List (K × Matrix (Fin r) (Fin c) K) × Matrix (Fin r) (Fin c) K) := do
  let j := i + 1
  let di ← vecAt data i
  let dj ← vecAt data j
  let sum := st.2 + trapTerm di dj
  pure (st.1 ++ [((dj.1 + di.1) * (1 / 2), sum)], sum)

/-- `TrapIntegrationTwice` (lines 82-95). The loop test `i < data.size() - 1` is evaluated
in `size_t`, see `sizeMinusOne`. -/
def TrapIntegrationTwice (data : List (K × Matrix (Fin r) (Fin c) K)) :
    Except Fault (Matrix (Fin r) (Fin c) K) :=
  match forLoop (twiceBody data) (sizeMinusOne data.length) 0 ([], 0) with
  | Except.error e => Except.error e
  | Except.ok st => TrapIntegrationOnce st.1

/-! ### Specification-side definitions for the integration claims -/

/-- The matrix all of whose components equal `x` (`Constant(x)` in Eigen). -/
def constMat (x : K) : Matrix (Fin r) (Fin c) K :=
  fun _ _ => x

/-- Timestamp `t_i` of a series (zero outside the series). -/
def timeAt (data : List (K × Matrix (Fin r) (Fin c) K)) (i : Nat) : K :=
  (data.getD i (0, 0)).1

/-- Value `v_i` of a series (zero outside the series). -/
def valueAt (data : List (K × Matrix (Fin r) (Fin c) K)) (i : Nat) :
    Matrix (Fin r) (Fin c) K :=
  (data.getD i (0, 0)).2

/-- Trapezoid over interval `i`: `(v_i + v_{i+1}) * (t_{i+1} - t_i) / 2`. -/
def trapezoid (data : List (K × Matrix (Fin r) (Fin c) K)) (i : Nat) :
    Matrix (Fin r) (Fin c) K :=
  ((timeAt data (i + 1) - timeAt data i) / 2) • (valueAt data i + valueAt data (i + 1))

/-- The derived series of the second-order integral as the specification words it:
entry `k` (for `k < N - 1`) has the midpoint timestamp `(t_k + t_{k+1}) / 2` and the
cumulative sum of the trapezoids over the intervals `0..k`. -/
def midpointSeries (data : List (K × Matrix (Fin r) (Fin c) K)) :
    List (K × Matrix (Fin r) (Fin c) K) :=
  (List.range (data.length - 1)).map fun k =>
    ((timeAt data k + timeAt data (k + 1)) / 2,
      ∑ i ∈ Finset.range (k + 1), trapezoid data i)

/-- Entry `m` of the derived series built by the loop of `TrapIntegrationTwice` when it
is entered at counter `i` with running sum `s`. -/
def loopEntry (data : List (K × Matrix (Fin r) (Fin c) K)) (i : Nat)
    (s : Matrix (Fin r) (Fin c) K) (m : Nat) : K × Matrix (Fin r) (Fin c) K :=
  ((timeAt data (i + m) + timeAt data (i + m + 1)) / 2,
    s + ∑ l ∈ Finset.range (m + 1), trapezoid data (i + l))

/-- The uniformly sampled constant series `[(t0 + k*h, C) for k = 0..N]`, of `N`
intervals. -/
def uniformSeries (t0 h : K) (C : Matrix (Fin r) (Fin c) K) (N : Nat) :
    List (K × Matrix (Fin r) (Fin c) K) :=
  (List.range (N + 1)).map fun (k : Nat) => (t0 + (k : K) * h, C)

end Integration

/-! ## Karcher mean of rotations (`utils.hpp`, lines 106-126) -/

section Karcher

variable {K : Type} [LinearOrderedField K] {G : Type}

/-- The operations of `Sophus::SO3<ScaleType>` used by `ComputeKarcherMean`. The Sophus
library is not part of the sources, so its operations are parameters of the embedding:
`identity` is the default-constructed rotation `{}`, `mul` is `operator*`, and tangent
vectors (`Eigen::Vector3<ScaleType>`) are `Fin 3 → K`. -/
structure SO3Ops (G K : Type) where
  identity : G
  mul : G → G → G
  inverse : G → G
  log : G → Fin 3 → K
  exp : (Fin 3 → K) → G

/-- Eigen's `squaredNorm()` of a 3-vector. -/
def squaredNorm (A : Fin 3 → K) : K :=
  A 0 * A 0 + A 1 * A 1 + A 2 * A 2

/-- The test `A.norm() < tolerance` of line 119. `norm()` is the Euclidean norm, the
non-negative square root of `squaredNorm()`, so the test holds exactly when the tolerance
is positive and the squared norm is below the squared tolerance. -/
def normBelow (A : Fin 3 → K) (tolerance : K) : Prop :=
  0 < tolerance ∧ squaredNorm A < tolerance * tolerance

instance normBelowDecidable (A : Fin 3 → K) (tolerance : K) :
    Decidable (normBelow A tolerance) := by
  unfold normBelow
  exact inferInstance

/-- The vector `A` after the inner loop of lines 114-117: the sum of the tangent vectors
`(X.inverse() * item).log()` over the input rotations. -/
def tangentSum (ops : SO3Ops G K) (so3Vec : List G) (X : G) : Fin 3 → K :=
  so3Vec.foldl (fun A item => A + ops.log (ops.mul (ops.inverse X) item)) 0

/-- The vector `A` after line 118, `A /= static_cast<double>(so3Vec.size())`. -/
def averagedTangent (ops : SO3Ops G K) (so3Vec : List G) (X : G) : Fin 3 → K :=
  fun i => tangentSum ops so3Vec X i / (so3Vec.length : K)

/-- The update of line 122, `X = X * Sophus::SO3<ScaleType>::exp(A)`. -/
def karcherUpdate (ops : SO3Ops G K) (so3Vec : List G) (X : G) : G :=
  ops.mul X (ops.exp (averagedTangent ops so3Vec X))

/-- The loop `while (true)` of lines 113-124, unrolled for at most `fuel` evaluations of
the convergence test; `none` means that the loop has not been left within them. -/
def karcherLoop (ops : SO3Ops G K) (so3Vec : List G) (tolerance : K) : Nat → G → Option G
  | 0, _ => none
  | fuel + 1, X =>
    if normBelow (averagedTangent ops so3Vec X) tolerance then some X
    else karcherLoop ops so3Vec tolerance fuel (karcherUpdate ops so3Vec X)

/-- `ComputeKarcherMean` (lines 106-126), with the loop unrolled `fuel` times: `some X`
when the function returns `X` after at most `fuel` convergence tests, `none` when it is
still inside its loop after `fuel` tests. The source has no bound of its own. -/
def ComputeKarcherMean (ops : SO3Ops G K) (so3Vec : List G) (tolerance : K) (fuel : Nat) :
    Option G :=
  match so3Vec with
  | [] => some ops.identity
  | front :: _ => karcherLoop ops so3Vec tolerance fuel front

/-- The averaged tangent vector as the specification words it:
`(1/n) * sum_i log(X^-1 * R_i)`. -/
def meanTangent (ops : SO3Ops G K) (so3Vec : List G) (X : G) : Fin 3 → K :=
  fun i => 1 / (so3Vec.length : K)
    * (so3Vec.map fun R => ops.log (ops.mul (ops.inverse X) R)).sum i

/-- The default value `1E-15` of the parameter `tolerance`. -/
def defaultTolerance : K :=
  1 / 10 ^ 15

/-- Rotations about one fixed axis, written in the angle chart: a rotation is its signed
angle, composition adds angles, and the tangent vector of the rotation by `a` is `a` times
the axis (the third basis vector). This instance of `SO3Ops` is exact for rotation sets
whose angles stay inside the half turn. -/
def axisOps : SO3Ops ℚ ℚ where
  identity := 0
  mul := fun a b => a + b
  inverse := fun a => -a
  log := fun a => ![0, 0, a]
  exp := fun v => v 2

/-- The laws of the rotation group that the claim on a symmetric pair of rotations rests
on, for the one-parameter subgroup through the tangent vector `v`: the group laws of
`mul`, `inverse` and `identity`, the addition law of `exp` along `v`, and `log (exp w) = w`
for the multiples `w` of `v` of norm below the half turn (`halfTurn` is the number pi).
`Sophus::SO3` has them in exact arithmetic. -/
structure SO3Laws (ops : SO3Ops G K) (halfTurn : K) (v : Fin 3 → K) : Prop where
  mul_assoc : ∀ a b c : G, ops.mul (ops.mul a b) c = ops.mul a (ops.mul b c)
  identity_mul : ∀ a : G, ops.mul ops.identity a = a
  mul_identity : ∀ a : G, ops.mul a ops.identity = a
  inverse_mul : ∀ a : G, ops.mul (ops.inverse a) a = ops.identity
  exp_add : ∀ s t : K, ops.mul (ops.exp (s • v)) (ops.exp (t • v)) = ops.exp ((s + t) • v)
  log_exp : ∀ s : K, normBelow (s • v) halfTurn → ops.log (ops.exp (s • v)) = s • v

end Karcher

/-! ## Means (`utils.hpp`, lines 128-147) -/

section Means

variable {K : Type} [Field K] {r c : Nat}

/-- `ComputeMatVecMean` (lines 128-137): the matrices are summed up from `Zero()` and the
sum is divided, coefficient by coefficient, by `static_cast<double>(vec.size())`. -/
def ComputeMatVecMean (vec : List (Matrix (Fin r) (Fin c) K)) : Matrix (Fin r) (Fin c) K :=
  let X := vec.foldl (fun X item => X + item) 0
  fun i j => X i j / (vec.length : K)

/-- `ComputeNumericalMean` (lines 139-147). -/
def ComputeNumericalMean (vec : List K) : K :=
  let X := vec.foldl (fun X item => X + item) 0
  X / (vec.length : K)

end Means

/-! ## Pose-sequence persistence (`utils.hpp`, lines 158-168) -/

/-- Exceptions that leave `SavePoseSequence`: `std::filesystem::filesystem_error`, thrown
by `std::filesystem::exists` and by `std::filesystem::create_directories`, and an
exception of the cereal archive. -/
inductive SaveFault where
  | filesystemError
  | archiveError
  deriving DecidableEq, Repr

/-- What the libraries called by `SavePoseSequence` answer during one call. The libraries
(`std::filesystem`, `std::ofstream`, cereal and `util/cereal_archive_helper.hpp`) are not
part of the sources, so their answers are parameters of the embedding:
* `parentExists`: the outcome of `exists(parPath)`, which returns a boolean or throws
  `filesystem_error`;
* `createDirectories`: the outcome of `std::filesystem::create_directories(parPath)`,
  which returns whether a directory was created or throws `filesystem_error`;
* `openOk`: whether `std::ofstream file(filename)` could open the file for writing (the
  constructor throws nothing);
* `serialize`: the outcome of `GetOutputArchiveVariant` followed by
  `SerializeByOutputArchiveVariant`, given whether the stream is open and the name of the
  field: it returns normally or throws. -/
structure SaveEnv where
  parentExists : Except SaveFault Bool
  createDirectories : Except SaveFault Bool
  openOk : Bool
  serialize : Bool → String → Except SaveFault Unit

/-- What a call of `SavePoseSequence` that returns has done: the returned boolean, whether
`create_directories` was called and reported that it created the parent directories, and
the name of the field under which the sequence was serialized into the output stream
(`none` when the serialization was not reached). Whether the stream was open is
`SaveEnv.openOk`. -/
structure SaveOutcome where
  returned : Bool
  dirsCreated : Bool
  serialized : Option String
  deriving DecidableEq, Repr

/-- `SavePoseSequence` (lines 158-168). The condition of line 161,
`!exists(parPath) && !std::filesystem::create_directories(parPath)`, calls
`create_directories` only when `exists` has returned `false`; an exception of either call,
or of the serialization of lines 165-166, leaves the function. The stream opened in line
164 is not inspected. -/
def SavePoseSequence (env : SaveEnv) : Except SaveFault SaveOutcome := do
  let parentExists ← env.parentExists
  let created ← if parentExists then pure false else env.createDirectories
  if !parentExists && !created then
    pure ⟨false, false, none⟩
  else
    env.serialize env.openOk "pose_seq"
    pure ⟨true, created, some "pose_seq"⟩

/-! ## IMU loader message check (`imu_data_loader.h`, lines 16-48) -/

/-- The enumeration `IMUModelType` (lines 16-19). -/
inductive IMUModelType where
  | SENSOR_IMU
  | SBG_IMU
  deriving DecidableEq, Repr

/-- The data member of class `IMUDataLoader` (line 27). -/
structure IMUDataLoader where
  _imuModel : IMUModelType
  deriving DecidableEq, Repr

/-- Modelled from the spec: the body of `IMUDataLoader::GetIMUModel` is in
`imu_data_loader.cpp`, which is not among the sources; a loader remembers the model it was
constructed for, and the getter reports it. -/
def IMUDataLoader.GetIMUModel (loader : IMUDataLoader) : IMUModelType :=
  loader._imuModel

/-- `IMUDataLoader::CheckMessage<MsgType>` (lines 39-47). `msg` is the typed message
pointer `MsgType::ConstPtr` (`none` is `nullptr`); `enumToString` is
`EnumCast::enumToString` of `util/enum_cast.hpp`, which is not among the sources and is a
parameter. A `std::runtime_error` is `Except.error` with its text; a normal return yields
the loader and the message as they are after the call. -/
def IMUDataLoader.CheckMessage {Msg : Type} (enumToString : IMUModelType → String)
    (loader : IMUDataLoader) (msg : Option Msg) :
    Except String (IMUDataLoader × Option Msg) :=
  match msg with
  | none =>
    Except.error ("message type of some IMUs was set incorrectly!!! Wrong type: "
      ++ enumToString loader.GetIMUModel)
  | some m => Except.ok (loader, some m)


/-! ## Loader registry (`imu_data_loader.h`, `radar_data_loader.h`) -/

/-- The enumeration `RadarModelType` (`radar_data_loader.h`, lines 41-47). -/
inductive RadarModelType where
  | AINSTEIN_RADAR
  | AWR1843BOOST_RAW
  | AWR1843BOOST_CUSTOM
  | AWR1843BOOST_PC2_POSV
  | AWR1843BOOST_PC2_POSIV
  deriving DecidableEq, Repr

/-- The data member of class `RadarDataLoader` (`radar_data_loader.h`, line 54). -/
structure RadarDataLoader where
  _radarModel : RadarModelType
  deriving DecidableEq, Repr

/-- The failure of the loader registry. -/
inductive LoaderError where
  | UnknownModel
  deriving DecidableEq, Repr

/-- The name of an `IMUModelType` value, as a model identifier string. -/
def IMUModelType.name : IMUModelType → String
  | IMUModelType.SENSOR_IMU => "SENSOR_IMU"
  | IMUModelType.SBG_IMU => "SBG_IMU"

/-- The name of a `RadarModelType` value, as a model identifier string. -/
def RadarModelType.name : RadarModelType → String
  | RadarModelType.AINSTEIN_RADAR => "AINSTEIN_RADAR"
  | RadarModelType.AWR1843BOOST_RAW => "AWR1843BOOST_RAW"
  | RadarModelType.AWR1843BOOST_CUSTOM => "AWR1843BOOST_CUSTOM"
  | RadarModelType.AWR1843BOOST_PC2_POSV => "AWR1843BOOST_PC2_POSV"
  | RadarModelType.AWR1843BOOST_PC2_POSIV => "AWR1843BOOST_PC2_POSIV"

/-- Modelled from the spec: the body of `RadarDataLoader::GetRadarModel` is in
`radar_data_loader.cpp`, which is not among the sources; a loader remembers the model it
was constructed for, and the getter reports it. -/
def RadarDataLoader.GetRadarModel (loader : RadarDataLoader) : RadarModelType :=
  loader._radarModel

/-- Modelled from the spec: the body of `IMUDataLoader::GetLoader` is in
`imu_data_loader.cpp`, which is not among the sources. The registry resolves a model
identifier by a case-sensitive exact match against the fixed table of the supported
models, returns a loader constructed for the matching model, and fails with
`UnknownModel` when no entry matches. -/
def IMUDataLoader.GetLoader (imuModelStr : String) : Except LoaderError IMUDataLoader :=
  match [IMUModelType.SENSOR_IMU, IMUModelType.SBG_IMU].find?
      (fun m => m.name == imuModelStr) with
  | some m => Except.ok ⟨m⟩
  | none => Except.error LoaderError.UnknownModel

/-- Modelled from the spec: the body of `RadarDataLoader::GetLoader` is in
`radar_data_loader.cpp`, which is not among the sources. The registry resolves a model
identifier by a case-sensitive exact match against the fixed table of the supported
models, returns a loader constructed for the matching model, and fails with
`UnknownModel` when no entry matches. -/
def RadarDataLoader.GetLoader (radarModelStr : String) :
    Except LoaderError RadarDataLoader :=
  match [RadarModelType.AINSTEIN_RADAR, RadarModelType.AWR1843BOOST_RAW,
      RadarModelType.AWR1843BOOST_CUSTOM, RadarModelType.AWR1843BOOST_PC2_POSV,
      RadarModelType.AWR1843BOOST_PC2_POSIV].find? (fun m => m.name == radarModelStr) with
  | some m => Except.ok ⟨m⟩
  | none => Except.error LoaderError.UnknownModel

/-! ## String splitting (`utils.hpp`, lines 45-67) -/

/-- The loop `while (true)` of `SplitString` (lines 55-65), entered with the iterator
`iter` at the start of the unread characters `rest` and with the vector `vec` built so far:
`pos = std::find(iter, str.cend(), splitor)` stops at the first occurrence of `splitor`
in `rest`, `elem` is the text before it, and the loop is left when `pos` is the end of
the string; otherwise it goes on behind the occurrence, `iter = ++pos`. -/
def splitLoop (splitor : Char) (ignoreEmpty : Bool) (rest : List Char)
    (vec : List (List Char)) : List (List Char) :=
  let elem := rest.takeWhile (fun ch => ch != splitor)
  let vec1 := if elem.isEmpty && ignoreEmpty then vec else vec ++ [elem]
  match _hpos : rest.dropWhile (fun ch => ch != splitor) with
  | [] => vec1
  | _ :: tail => splitLoop splitor ignoreEmpty tail vec1
termination_by rest.length
decreasing_by
  have hle := (List.dropWhile_sublist (fun ch => ch != splitor) (l := rest)).length_le
  rw [_hpos] at hle
  simp only [List.length_cons] at hle
  omega

/-- `SplitString` (lines 52-67); a `std::string` is the list of its characters. -/
def SplitString (str : List Char) (splitor : Char) (ignoreEmpty : Bool) :
    List (List Char) :=
  splitLoop splitor ignoreEmpty str []

/-! ## Verification of the integration utilities -/

section IntegrationProofs

variable {K : Type} [Field K] {r c : Nat}

theorem vecAt_of_lt {α : Type} (data : List α) (d : α) {i : Nat} (h : i < data.length) :
    vecAt data i = Except.ok (data.getD i d) := by
  simp [vecAt, List.getElem?_eq_getElem h, List.getD_eq_getElem _ _ h]

theorem vecAt_of_le {α : Type} (data : List α) {i : Nat} (h : data.length ≤ i) :
    vecAt data i = Except.error Fault.outOfRange := by
  simp [vecAt, List.getElem?_eq_none h]

theorem mulScalar_eq_smul (M : Matrix (Fin r) (Fin c) K) (s : K) :
    mulScalar M s = s • M := by
  ext i j
  simp [mulScalar, mul_comm]

theorem trapTerm_eq_trapezoid (data : List (K × Matrix (Fin r) (Fin c) K)) (i : Nat) :
    trapTerm (data.getD i (0, 0)) (data.getD (i + 1) (0, 0)) = trapezoid data i := by
  simp only [trapTerm, trapezoid, mulScalar_eq_smul, timeAt, valueAt, smul_smul]
  congr 1
  ring

theorem onceBody_of_lt (data : List (K × Matrix (Fin r) (Fin c) K)) {i : Nat}
    (h : i + 1 < data.length) (sum : Matrix (Fin r) (Fin c) K) :
    onceBody data i sum = Except.ok (sum + trapezoid data i) := by
  have h0 : i < data.length := by omega
  simp only [onceBody, vecAt_of_lt data (0, 0) h0, vecAt_of_lt data (0, 0) h,
    ← trapTerm_eq_trapezoid]
  rfl

theorem forLoop_onceBody (data : List (K × Matrix (Fin r) (Fin c) K)) (n : Nat) :
    ∀ (i : Nat) (sum : Matrix (Fin r) (Fin c) K), i + n < data.length ∨ n = 0 →
      forLoop (onceBody data) n i sum
        = Except.ok (sum + ∑ m ∈ Finset.range n, trapezoid data (i + m)) := by
  induction n with
  | zero => intro i sum _; simp [forLoop]
  | succ n ih =>
    intro i sum h
    have hi : i + 1 < data.length := by omega
    rw [forLoop, onceBody_of_lt data hi]
    simp only
    rw [ih (i + 1) _ (Or.inl (by omega)), Finset.sum_range_succ']
    have hs : ∀ m, trapezoid data (i + 1 + m) = trapezoid data (i + (m + 1)) := by
      intro m
      rw [add_assoc, add_comm 1 m]
    simp only [hs, add_zero]
    rw [add_assoc, add_comm (trapezoid data i)]

theorem TrapIntegrationOnce_eq (data : List (K × Matrix (Fin r) (Fin c) K)) :
    TrapIntegrationOnce data
      = Except.ok (∑ i ∈ Finset.range (data.length - 1), trapezoid data i) := by
  unfold TrapIntegrationOnce
  have hn : (((data.length : Int) - 1).toNat) = data.length - 1 := by omega
  rw [hn, forLoop_onceBody data (data.length - 1) 0 0 (by omega)]
  simp

theorem twiceBody_of_lt (data : List (K × Matrix (Fin r) (Fin c) K)) {i : Nat}
    (h : i + 1 < data.length)
    (st : List (K × Matrix (Fin r) (Fin c) K) × Matrix (Fin r) (Fin c) K) :
    twiceBody data i st
      = Except.ok (st.1 ++ [((timeAt data i + timeAt data (i + 1)) / 2,
          st.2 + trapezoid data i)], st.2 + trapezoid data i) := by
  have h0 : i < data.length := by omega
  have ht : ((data.getD (i + 1) (0, 0)).1 + (data.getD i (0, 0)).1) * (1 / 2)
      = (timeAt data i + timeAt data (i + 1)) / 2 := by
    simp only [timeAt]
    ring
  simp only [twiceBody, vecAt_of_lt data (0, 0) h0, vecAt_of_lt data (0, 0) h,
    ← trapTerm_eq_trapezoid, ← ht]
  rfl

theorem forLoop_twiceBody (data : List (K × Matrix (Fin r) (Fin c) K)) (n : Nat) :
    ∀ (i : Nat) (acc : List (K × Matrix (Fin r) (Fin c) K)) (s : Matrix (Fin r) (Fin c) K),
      i + n < data.length ∨ n = 0 →
      forLoop (twiceBody data) n i (acc, s)
        = Except.ok (acc ++ (List.range n).map (loopEntry data i s),
            s + ∑ m ∈ Finset.range n, trapezoid data (i + m)) := by
  induction n with
  | zero => intro i acc s _; simp [forLoop]
  | succ n ih =>
    intro i acc s h
    have hi : i + 1 < data.length := by omega
    rw [forLoop, twiceBody_of_lt data hi]
    simp only
    rw [ih (i + 1) _ _ (Or.inl (by omega)), Finset.sum_range_succ', List.range_succ_eq_map]
    have hs : ∀ m, trapezoid data (i + 1 + m) = trapezoid data (i + (m + 1)) := by
      intro m
      rw [add_assoc, add_comm 1 m]
    have he : ∀ m, loopEntry data (i + 1) (s + trapezoid data i) m
        = loopEntry data i s (m + 1) := by
      intro m
      simp only [loopEntry, hs, Finset.sum_range_succ' _ (m + 1), add_zero]
      have e1 : i + 1 + m = i + (m + 1) := by omega
      rw [e1, add_assoc s, add_comm (trapezoid data i)]
    have h0 : loopEntry data i s 0
        = ((timeAt data i + timeAt data (i + 1)) / 2, s + trapezoid data i) := by
      simp [loopEntry]
    simp only [hs, he, add_zero, List.map_cons, List.map_map, List.append_assoc,
      List.singleton_append, h0]
    rw [add_assoc s, add_comm (trapezoid data i)]
    have hf : loopEntry data (i + 1) (s + trapezoid data i) = loopEntry data i s ∘ Nat.succ :=
      funext he
    rw [hf]

theorem loopEntry_zero (data : List (K × Matrix (Fin r) (Fin c) K)) :
    (List.range (data.length - 1)).map (loopEntry data 0 0) = midpointSeries data := by
  unfold midpointSeries
  apply List.map_congr_left
  intro k _
  simp [loopEntry]

theorem TrapIntegrationTwice_of_pos (data : List (K × Matrix (Fin r) (Fin c) K))
    (hN : 1 ≤ data.length) :
    TrapIntegrationTwice data = TrapIntegrationOnce (midpointSeries data) := by
  have hb : sizeMinusOne data.length = data.length - 1 := by
    unfold sizeMinusOne
    rw [if_neg (by omega)]
  unfold TrapIntegrationTwice
  rw [hb, forLoop_twiceBody data (data.length - 1) 0 [] 0 (by omega)]
  simp only [List.nil_append, loopEntry_zero]

theorem TrapIntegrationTwice_const3_eq [CharZero K] :
    TrapIntegrationTwice
        ([(0, constMat 1), (1, constMat 1), (2, constMat 1)] :
          List (K × Matrix (Fin r) (Fin c) K))
      = Except.ok (constMat (3 / 2)) := by
  rw [TrapIntegrationTwice_of_pos _ (by simp), TrapIntegrationOnce_eq]
  simp only [midpointSeries, List.length_cons, List.length_nil]
  norm_num [List.range_succ, Finset.sum_range_succ, trapezoid, timeAt, valueAt]
  ext i j
  simp [constMat]
  norm_num

/-- C1: for every time series (any number `N` of samples, exact arithmetic),
`TrapIntegrationOnce` returns the sum over `i = 0..N-2` of
`(v_i + v_{i+1}) * (t_{i+1} - t_i) / 2`; in particular on the two-sample series
`[(0, v0), (1, v1)]` it returns `(v0 + v1) / 2`. -/
theorem TrapIntegrationOnce_trapezoid_sum (data : List (K × Matrix (Fin r) (Fin c) K)) :
    TrapIntegrationOnce data
        = Except.ok (∑ i ∈ Finset.range (data.length - 1),
            ((timeAt data (i + 1) - timeAt data i) / 2)
              • (valueAt data i + valueAt data (i + 1)))
      ∧ ∀ v0 v1 : Matrix (Fin r) (Fin c) K,
          TrapIntegrationOnce [((0 : K), v0), ((1 : K), v1)]
            = Except.ok ((1 / 2 : K) • (v0 + v1)) := by
  refine ⟨TrapIntegrationOnce_eq data, ?_⟩
  intro v0 v1
  rw [TrapIntegrationOnce_eq]
  simp [trapezoid, timeAt, valueAt]

/-- C2: for every time series with `N >= 1` samples, `TrapIntegrationTwice data` equals
`TrapIntegrationOnce` applied to the derived series of `N - 1` entries whose `k`-th entry
has timestamp `(t_k + t_{k+1}) / 2` and value the cumulative sum of the trapezoids
`(v_i + v_{i+1}) * (t_{i+1} - t_i) / 2` over `i = 0..k`. -/
theorem TrapIntegrationTwice_eq_once_midpointSeries
    (data : List (K × Matrix (Fin r) (Fin c) K)) (hN : 1 ≤ data.length) :
    TrapIntegrationTwice data = TrapIntegrationOnce (midpointSeries data)
      ∧ (midpointSeries data).length = data.length - 1
      ∧ ∀ k, k < data.length - 1 →
          (midpointSeries data)[k]? = some ((timeAt data k + timeAt data (k + 1)) / 2,
            ∑ i ∈ Finset.range (k + 1),
              ((timeAt data (i + 1) - timeAt data i) / 2)
                • (valueAt data i + valueAt data (i + 1))) := by
  refine ⟨TrapIntegrationTwice_of_pos data hN, by simp [midpointSeries], ?_⟩
  · intro k hk
    simp [midpointSeries, hk, trapezoid]

/-- Witness for C2 on the three-sample series `[(0, 1), (1, 3), (3, 2)]`. -/
theorem TrapIntegrationTwice_eq_once_midpointSeries_witness :
    1 ≤ ([(0, 1), (1, 3), (3, 2)] : List (ℚ × Matrix (Fin 1) (Fin 1) ℚ)).length
      ∧ TrapIntegrationTwice ([(0, 1), (1, 3), (3, 2)] : List (ℚ × Matrix (Fin 1) (Fin 1) ℚ))
          = TrapIntegrationOnce
              (midpointSeries ([(0, 1), (1, 3), (3, 2)] : List (ℚ × Matrix (Fin 1) (Fin 1) ℚ))) :=
  ⟨by decide, (TrapIntegrationTwice_eq_once_midpointSeries _ (by decide)).1⟩

/-- C8: for every time series with fewer than two samples (the empty series and the
single-sample series) `TrapIntegrationOnce` returns the zero matrix and raises nothing. -/
theorem TrapIntegrationOnce_short (data : List (K × Matrix (Fin r) (Fin c) K))
    (h : data.length < 2) : TrapIntegrationOnce data = Except.ok 0 := by
  rw [TrapIntegrationOnce_eq]
  have h0 : data.length - 1 = 0 := by omega
  simp [h0]

/-- Witness for C8 on a single-sample series of 3-vectors. -/
theorem TrapIntegrationOnce_short_witness :
    ([(5, constMat 1)] : List (ℚ × Matrix (Fin 3) (Fin 1) ℚ)).length < 2
      ∧ TrapIntegrationOnce ([(5, constMat 1)] : List (ℚ × Matrix (Fin 3) (Fin 1) ℚ)) = Except.ok 0 :=
  ⟨by decide, TrapIntegrationOnce_short _ (by decide)⟩

/-- C3 (amended): on the constant series `[(0,1),(1,1),(2,1)]`, every component of every
value being 1, `TrapIntegrationTwice` returns `3/2` in every component. -/
theorem TrapIntegrationTwice_const3 [CharZero K] :
    TrapIntegrationTwice
        ([(0, constMat 1), (1, constMat 1), (2, constMat 1)] :
          List (K × Matrix (Fin r) (Fin c) K))
      = Except.ok (constMat (3 / 2)) :=
  TrapIntegrationTwice_const3_eq

/-- Witness for C3 (amended): 3-vectors over the rationals. -/
theorem TrapIntegrationTwice_const3_witness :
    TrapIntegrationTwice
        ([(0, constMat 1), (1, constMat 1), (2, constMat 1)] :
          List (ℚ × Matrix (Fin 3) (Fin 1) ℚ))
      = Except.ok (constMat (3 / 2)) :=
  TrapIntegrationTwice_const3

/-- C3 as stated fails: on the constant series `[(0,1),(1,1),(2,1)]` of 3-vectors over the
rationals the result of `TrapIntegrationTwice` is not 2 in every component. -/
theorem TrapIntegrationTwice_const3_ne_two :
    TrapIntegrationTwice
        ([(0, constMat 1), (1, constMat 1), (2, constMat 1)] :
          List (ℚ × Matrix (Fin 3) (Fin 1) ℚ))
      ≠ Except.ok (constMat 2) := by
  rw [TrapIntegrationTwice_const3_eq]
  intro h
  have h1 := congrFun (congrFun (Except.ok.inj h) 0) 0
  simp only [constMat] at h1
  norm_num at h1

end IntegrationProofs

/-! ## Verification of the Karcher mean -/

section KarcherProofs

variable {K : Type} [LinearOrderedField K] {G : Type}

theorem squaredNorm_nonneg (A : Fin 3 → K) : 0 ≤ squaredNorm A := by
  unfold squaredNorm
  have h0 := mul_self_nonneg (A 0)
  have h1 := mul_self_nonneg (A 1)
  have h2 := mul_self_nonneg (A 2)
  linarith

theorem squaredNorm_zero : squaredNorm (0 : Fin 3 → K) = 0 := by
  simp [squaredNorm]

/-- Over the reals the test `normBelow` is the comparison of the Euclidean norm
`sqrt (squaredNorm A)` with the tolerance. -/
theorem normBelow_iff_sqrt_lt (A : Fin 3 → ℝ) (tolerance : ℝ) :
    normBelow A tolerance ↔ Real.sqrt (squaredNorm A) < tolerance := by
  unfold normBelow
  constructor
  · rintro ⟨hpos, hlt⟩
    rw [Real.sqrt_lt' hpos, pow_two]
    exact hlt
  · intro h
    have hpos : 0 < tolerance := lt_of_le_of_lt (Real.sqrt_nonneg _) h
    refine ⟨hpos, ?_⟩
    rw [Real.sqrt_lt' hpos, pow_two] at h
    exact h

theorem not_normBelow_of_nonpos (A : Fin 3 → K) {tolerance : K} (h : tolerance ≤ 0) :
    ¬ normBelow A tolerance := by
  rintro ⟨hpos, _⟩
  exact absurd hpos (not_lt.mpr h)

theorem normBelow_zero {tolerance : K} (h : 0 < tolerance) :
    normBelow (0 : Fin 3 → K) tolerance := by
  refine ⟨h, ?_⟩
  rw [squaredNorm_zero]
  exact mul_pos h h

theorem defaultTolerance_pos : (0 : K) < defaultTolerance := by
  unfold defaultTolerance
  positivity

theorem foldl_add_eq_sum {β : Type} (f : β → Fin 3 → K) (l : List β) :
    ∀ a : Fin 3 → K, l.foldl (fun A item => A + f item) a = a + (l.map f).sum := by
  induction l with
  | nil => intro a; simp
  | cons x xs ih =>
    intro a
    rw [List.foldl_cons, ih, List.map_cons, List.sum_cons, add_assoc]

theorem karcherLoop_none_of_nonpos (ops : SO3Ops G K) (so3Vec : List G) {tolerance : K}
    (h : tolerance ≤ 0) :
    ∀ (fuel : Nat) (X : G), karcherLoop ops so3Vec tolerance fuel X = none := by
  intro fuel
  induction fuel with
  | zero => intro X; rfl
  | succ n ih =>
    intro X
    rw [karcherLoop, if_neg (not_normBelow_of_nonpos _ h)]
    exact ih _

theorem karcherLoop_some (ops : SO3Ops G K) (so3Vec : List G) (tolerance : K) :
    ∀ (fuel : Nat) (X0 X : G), karcherLoop ops so3Vec tolerance fuel X0 = some X →
      normBelow (averagedTangent ops so3Vec X) tolerance
        ∧ ∃ k, k < fuel ∧ X = (karcherUpdate ops so3Vec)^[k] X0
          ∧ ∀ j, j < k →
            ¬ normBelow (averagedTangent ops so3Vec ((karcherUpdate ops so3Vec)^[j] X0))
              tolerance := by
  intro fuel
  induction fuel with
  | zero =>
    intro X0 X h
    simp [karcherLoop] at h
  | succ n ih =>
    intro X0 X h
    rw [karcherLoop] at h
    by_cases ht : normBelow (averagedTangent ops so3Vec X0) tolerance
    · rw [if_pos ht] at h
      have hx : X0 = X := Option.some.inj h
      subst hx
      exact ⟨ht, 0, Nat.succ_pos n, rfl, fun j hj => absurd hj (Nat.not_lt_zero j)⟩
    · rw [if_neg ht] at h
      obtain ⟨hc, k, hk, hX, hj⟩ := ih _ _ h
      refine ⟨hc, k + 1, Nat.succ_lt_succ hk, ?_, ?_⟩
      · rw [Function.iterate_succ_apply]
        exact hX
      · intro j hjk
        cases j with
        | zero => exact ht
        | succ j =>
          rw [Function.iterate_succ_apply]
          exact hj j (Nat.lt_of_succ_lt_succ hjk)

theorem averagedTangent_eq_meanTangent (ops : SO3Ops G K) (so3Vec : List G) (X : G) :
    averagedTangent ops so3Vec X = meanTangent ops so3Vec X := by
  funext i
  simp only [averagedTangent, meanTangent, tangentSum, foldl_add_eq_sum, zero_add]
  rw [div_eq_mul_inv, one_div, mul_comm]

theorem ComputeKarcherMean_of_ne_nil (ops : SO3Ops G K) (so3Vec : List G) (hne : so3Vec ≠ [])
    (tolerance : K) (fuel : Nat) :
    ComputeKarcherMean ops so3Vec tolerance fuel
      = karcherLoop ops so3Vec tolerance fuel (so3Vec.head hne) := by
  cases so3Vec with
  | nil => exact absurd rfl hne
  | cons front rest => rfl

/-- C4 as stated fails: on the single rotation by the angle 1 about the axis, with
tolerance 0, `ComputeKarcherMean` has not returned after any number of loop iterations. -/
theorem ComputeKarcherMean_no_cap :
    ¬ ∃ fuel : Nat, ∃ X : ℚ, ComputeKarcherMean axisOps [1] (0 : ℚ) fuel = some X := by
  rintro ⟨fuel, X, h⟩
  rw [ComputeKarcherMean_of_ne_nil axisOps [1] (by simp),
    karcherLoop_none_of_nonpos axisOps [1] (le_refl (0 : ℚ))] at h
  exact Option.noConfusion h

/-- C4 (amended): `ComputeKarcherMean` has no iteration cap. For every non-empty rotation
set and every tolerance that is not positive, it has not returned after any number of
loop iterations. -/
theorem ComputeKarcherMean_diverges (ops : SO3Ops G K) (so3Vec : List G) (hne : so3Vec ≠ [])
    (tolerance : K) (htol : tolerance ≤ 0) (fuel : Nat) :
    ComputeKarcherMean ops so3Vec tolerance fuel = none := by
  rw [ComputeKarcherMean_of_ne_nil ops so3Vec hne, karcherLoop_none_of_nonpos ops so3Vec htol]

/-- Witness for C4 (amended): two rotations about the axis, tolerance 0, 100 iterations. -/
theorem ComputeKarcherMean_diverges_witness :
    ([1, 2] : List ℚ) ≠ [] ∧ (0 : ℚ) ≤ 0
      ∧ ComputeKarcherMean axisOps [1, 2] (0 : ℚ) 100 = none :=
  ⟨by simp, le_refl 0, ComputeKarcherMean_diverges axisOps [1, 2] (by simp) 0 (le_refl 0) 100⟩

/-- C5: for every non-empty rotation set and every tolerance, whenever
`ComputeKarcherMean` returns a rotation `X`, the norm of the averaged tangent vector
`(1/n) * sum_i log(X^-1 * R_i)` is strictly below the tolerance, and `X` is reached from
the first input rotation by applying `X <- X * exp(averaged tangent vector)` some `k`
times, the norm being not below the tolerance at each of the `k` earlier candidates. -/
theorem ComputeKarcherMean_converged (ops : SO3Ops G K) (so3Vec : List G)
    (hne : so3Vec ≠ []) (tolerance : K) (fuel : Nat) (X : G)
    (hret : ComputeKarcherMean ops so3Vec tolerance fuel = some X) :
    normBelow (meanTangent ops so3Vec X) tolerance
      ∧ ∃ k : Nat,
          X = (fun Y => ops.mul Y (ops.exp (meanTangent ops so3Vec Y)))^[k] (so3Vec.head hne)
          ∧ ∀ j, j < k →
              ¬ normBelow (meanTangent ops so3Vec
                  ((fun Y => ops.mul Y (ops.exp (meanTangent ops so3Vec Y)))^[j]
                    (so3Vec.head hne))) tolerance := by
  rw [ComputeKarcherMean_of_ne_nil ops so3Vec hne] at hret
  obtain ⟨hc, k, _, hX, hj⟩ := karcherLoop_some ops so3Vec tolerance fuel _ _ hret
  have hu : karcherUpdate ops so3Vec
      = fun Y => ops.mul Y (ops.exp (meanTangent ops so3Vec Y)) := by
    funext Y
    simp only [karcherUpdate, averagedTangent_eq_meanTangent]
  rw [hu] at hX hj
  rw [averagedTangent_eq_meanTangent] at hc
  refine ⟨hc, k, hX, ?_⟩
  intro j hjk
  have := hj j hjk
  rwa [averagedTangent_eq_meanTangent] at this

/-- C6: for the empty rotation set and every tolerance `ComputeKarcherMean` returns the
identity rotation, before entering its loop. -/
theorem ComputeKarcherMean_empty (ops : SO3Ops G K) (tolerance : K) (fuel : Nat) :
    ComputeKarcherMean ops ([] : List G) tolerance fuel = some ops.identity :=
  rfl

/-- C7: for every rotation `R` with `log(R^-1 * R)` the zero tangent vector,
`ComputeKarcherMean [R]` with the default tolerance returns exactly `R`: the first
convergence test succeeds, so that a single pass of the loop (no update step) returns
`R`, and so does every larger number of allowed passes. -/
theorem ComputeKarcherMean_single (ops : SO3Ops G K) (R : G)
    (hlog : ops.log (ops.mul (ops.inverse R) R) = 0) :
    normBelow (averagedTangent ops [R] R) (defaultTolerance : K)
      ∧ ComputeKarcherMean ops [R] (defaultTolerance : K) 1 = some R
      ∧ ∀ fuel : Nat, ComputeKarcherMean ops [R] (defaultTolerance : K) (fuel + 1) = some R := by
  have hA : averagedTangent ops [R] R = 0 := by
    funext i
    simp [averagedTangent, tangentSum, hlog]
  have ht : normBelow (averagedTangent ops [R] R) (defaultTolerance : K) := by
    rw [hA]
    exact normBelow_zero defaultTolerance_pos
  refine ⟨ht, ?_, ?_⟩
  · simp only [ComputeKarcherMean, karcherLoop, if_pos ht]
  · intro fuel
    simp only [ComputeKarcherMean, karcherLoop, if_pos ht]

/-- Witness for C5: the rotations by the angles 1 and 3 about the axis, tolerance `1/2`;
the function returns the rotation by the angle 2 after one update. -/
theorem ComputeKarcherMean_converged_witness :
    ([1, 3] : List ℚ) ≠ []
      ∧ ComputeKarcherMean axisOps [1, 3] (1 / 2 : ℚ) 2 = some 2
      ∧ normBelow (meanTangent axisOps [1, 3] (2 : ℚ)) (1 / 2 : ℚ) :=
  have hret : ComputeKarcherMean axisOps [1, 3] (1 / 2 : ℚ) 2 = some 2 := by
    simp only [ComputeKarcherMean, karcherLoop, karcherUpdate, averagedTangent, tangentSum,
      normBelow, squaredNorm, axisOps]
    norm_num
  ⟨by simp, hret,
    (ComputeKarcherMean_converged axisOps [1, 3] (by simp) (1 / 2) 2 2 hret).1⟩

/-- Witness for C7: the rotation by the angle `1/3` about the axis. -/
theorem ComputeKarcherMean_single_witness :
    axisOps.log (axisOps.mul (axisOps.inverse (1 / 3)) (1 / 3)) = 0
      ∧ ComputeKarcherMean axisOps [(1 / 3 : ℚ)] (defaultTolerance : ℚ) 1 = some (1 / 3) :=
  have hlog : axisOps.log (axisOps.mul (axisOps.inverse (1 / 3)) (1 / 3)) = 0 := by
    funext i
    fin_cases i <;> simp [axisOps]
  ⟨hlog, (ComputeKarcherMean_single axisOps (1 / 3) hlog).2.1⟩

end KarcherProofs

/-! ## Verification of the persistence utility -/

/-- The exceptions of the two `std::filesystem` calls leave `SavePoseSequence`: a throwing
`exists`, and a throwing `create_directories` after `exists` has returned `false`. -/
theorem SavePoseSequence_filesystem_error (env : SaveEnv) (e : SaveFault) :
    (env.parentExists = Except.error e → SavePoseSequence env = Except.error e)
      ∧ (env.parentExists = Except.ok false → env.createDirectories = Except.error e →
          SavePoseSequence env = Except.error e) := by
  obtain ⟨pe, cd, oo, ser⟩ := env
  constructor
  · intro h
    simp only at h
    subst h
    rfl
  · intro h1 h2
    simp only at h1 h2
    subst h1 h2
    rfl

/-- C9 as stated fails: when the parent directory exists and the file cannot be opened for
writing, `SavePoseSequence` returns `true`. -/
theorem SavePoseSequence_unwritable_returns_true :
    (SaveEnv.mk (Except.ok true) (Except.ok false) false (fun _ _ => Except.ok ())).openOk
        = false
      ∧ SavePoseSequence
          (SaveEnv.mk (Except.ok true) (Except.ok false) false (fun _ _ => Except.ok ()))
        = Except.ok ⟨true, false, some "pose_seq"⟩ :=
  ⟨rfl, rfl⟩

/-- C9 (amended): `SavePoseSequence` returns `false`, without serializing anything, when
the parent directory does not exist and `create_directories` returns `false`. When the
parent directory exists, or `create_directories` has created it, the sequence is
serialized into the output stream under the field name `pose_seq`: if the serialization
throws nothing the function returns `true`, whether or not the file could be opened for
writing, and an exception thrown by the serialization leaves the function. -/
theorem SavePoseSequence_returns (env : SaveEnv) :
    (env.parentExists = Except.ok false → env.createDirectories = Except.ok false →
        SavePoseSequence env = Except.ok ⟨false, false, none⟩)
      ∧ (env.parentExists = Except.ok true →
          env.serialize env.openOk "pose_seq" = Except.ok () →
          SavePoseSequence env = Except.ok ⟨true, false, some "pose_seq"⟩)
      ∧ (env.parentExists = Except.ok false → env.createDirectories = Except.ok true →
          env.serialize env.openOk "pose_seq" = Except.ok () →
          SavePoseSequence env = Except.ok ⟨true, true, some "pose_seq"⟩)
      ∧ (∀ e, env.parentExists = Except.ok true
            ∨ (env.parentExists = Except.ok false ∧ env.createDirectories = Except.ok true) →
          env.serialize env.openOk "pose_seq" = Except.error e →
          SavePoseSequence env = Except.error e) := by
  obtain ⟨pe, cd, oo, ser⟩ := env
  refine ⟨?_, ?_, ?_, ?_⟩
  · intro h1 h2
    simp only at h1 h2
    subst h1 h2
    rfl
  · intro h1 h2
    simp only at h1 h2
    subst h1
    simp [SavePoseSequence, h2, bind, Except.bind, pure, Except.pure]
  · intro h1 h2 h3
    simp only at h1 h2 h3
    subst h1 h2
    simp [SavePoseSequence, h3, bind, Except.bind, pure, Except.pure]
  · intro e h h3
    simp only at h h3
    rcases h with h1 | ⟨h1, h2⟩
    · subst h1
      simp [SavePoseSequence, h3, bind, Except.bind, pure, Except.pure]
    · subst h1 h2
      simp [SavePoseSequence, h3, bind, Except.bind, pure, Except.pure]

/-- Witness for C9 (amended): the parent directory is missing and is created, the file can
be opened and the serialization throws nothing: the function returns `true`, with the
directories created and the sequence serialized under `pose_seq`. -/
theorem SavePoseSequence_returns_witness :
    SavePoseSequence
        (SaveEnv.mk (Except.ok false) (Except.ok true) true (fun _ _ => Except.ok ()))
      = Except.ok ⟨true, true, some "pose_seq"⟩ :=
  (SavePoseSequence_returns
      (SaveEnv.mk (Except.ok false) (Except.ok true) true (fun _ _ => Except.ok ()))).2.2.1
    rfl rfl rfl

/-! ## Verification of the IMU message check -/

/-- C10: for every IMU loader and every raw record, `CheckMessage<MsgType>` raises the
malformed-message error, whose text ends in the name of the model reported by
`GetIMUModel`, if and only if the payload of the record does not instantiate as the
expected message type (the typed message pointer is null); when the payload matches, it
returns normally and leaves both the message and the loader (hence its model) as they
were. -/
theorem CheckMessage_fails_iff_null {Msg Rec : Type} (enumToString : IMUModelType → String)
    (instantiate : Rec → Option Msg) (loader : IMUDataLoader) (record : Rec) :
    ((∃ text, loader.CheckMessage enumToString (instantiate record) = Except.error text)
        ↔ instantiate record = none)
      ∧ (instantiate record = none → loader.CheckMessage enumToString (instantiate record)
          = Except.error ("message type of some IMUs was set incorrectly!!! Wrong type: "
              ++ enumToString loader.GetIMUModel))
      ∧ (∀ m, instantiate record = some m →
          loader.CheckMessage enumToString (instantiate record)
            = Except.ok (loader, instantiate record)) := by
  cases h : instantiate record with
  | none => simp [IMUDataLoader.CheckMessage]
  | some m => simp [IMUDataLoader.CheckMessage]


/-! ## Verification of `SplitString` -/

theorem splitLoop_of_not_mem (splitor : Char) (ignoreEmpty : Bool) (rest : List Char)
    (vec : List (List Char)) (h : splitor ∉ rest) :
    splitLoop splitor ignoreEmpty rest vec
      = if rest.isEmpty && ignoreEmpty then vec else vec ++ [rest] := by
  have hd : rest.dropWhile (fun ch => ch != splitor) = [] := by
    rw [List.dropWhile_eq_nil_iff]
    intro x hx
    simp only [bne_iff_ne, ne_eq]
    rintro rfl
    exact h hx
  have ht : rest.takeWhile (fun ch => ch != splitor) = rest := by
    have := List.takeWhile_append_dropWhile (fun ch => ch != splitor) rest
    rw [hd, List.append_nil] at this
    exact this
  rw [splitLoop]
  simp only [ht]
  split
  · rfl
  · rename_i hh
    rw [hd] at hh
    exact absurd hh (by simp)

theorem splitLoop_append_cons (splitor : Char) (ignoreEmpty : Bool) (a b : List Char)
    (vec : List (List Char)) (h : splitor ∉ a) :
    splitLoop splitor ignoreEmpty (a ++ splitor :: b) vec
      = splitLoop splitor ignoreEmpty b
          (if a.isEmpty && ignoreEmpty then vec else vec ++ [a]) := by
  have hp : ∀ x ∈ a, (fun ch => ch != splitor) x = true := by
    intro x hx
    simp only [bne_iff_ne, ne_eq]
    rintro rfl
    exact h hx
  have hd : (a ++ splitor :: b).dropWhile (fun ch => ch != splitor) = splitor :: b := by
    rw [List.dropWhile_append_of_pos hp]
    simp
  have ht : (a ++ splitor :: b).takeWhile (fun ch => ch != splitor) = a := by
    rw [List.takeWhile_append_of_pos hp]
    simp
  rw [splitLoop]
  simp only [ht]
  split
  · rename_i hh
    rw [hd] at hh
    exact absurd hh (by simp)
  · rename_i c t hh
    rw [hd] at hh
    have := (List.cons.inj hh).2
    subst this
    rfl

theorem first_occurrence (splitor : Char) (rest : List Char) :
    splitor ∉ rest ∨ ∃ a b, rest = a ++ splitor :: b ∧ splitor ∉ a := by
  induction rest with
  | nil => exact Or.inl (List.not_mem_nil _)
  | cons x xs ih =>
    by_cases hx : x = splitor
    · exact Or.inr ⟨[], xs, by simp [hx], List.not_mem_nil _⟩
    · rcases ih with h | ⟨a, b, hab, ha⟩
      · left
        simp only [List.mem_cons, not_or]
        exact ⟨fun e => hx e.symm, h⟩
      · right
        refine ⟨x :: a, b, by simp [hab], ?_⟩
        simp only [List.mem_cons, not_or]
        exact ⟨fun e => hx e.symm, ha⟩

/-- Induction along the passes of the loop of `SplitString`: a property holds for every
string when it holds for the strings without the separator and passes from the text
behind the first separator to the whole string. -/
theorem split_induction (splitor : Char) (P : List Char → Prop)
    (h1 : ∀ rest, splitor ∉ rest → P rest)
    (h2 : ∀ a b, splitor ∉ a → P b → P (a ++ splitor :: b)) : ∀ rest, P rest := by
  have key : ∀ (n : Nat) (rest : List Char), rest.length = n → P rest := by
    intro n
    induction n using Nat.strong_induction_on with
    | _ n ih =>
      intro rest hn
      rcases first_occurrence splitor rest with h | ⟨a, b, hab, ha⟩
      · exact h1 rest h
      · subst hab
        apply h2 a b ha
        apply ih b.length _ b rfl
        rw [← hn]
        simp only [List.length_append, List.length_cons]
        omega
  intro rest
  exact key rest.length rest rfl

theorem splitLoop_acc (splitor : Char) (ignoreEmpty : Bool) :
    ∀ (rest : List Char) (vec : List (List Char)),
      splitLoop splitor ignoreEmpty rest vec
        = vec ++ splitLoop splitor ignoreEmpty rest [] := by
  apply split_induction splitor
  · intro rest h vec
    rw [splitLoop_of_not_mem _ _ _ _ h, splitLoop_of_not_mem _ _ _ _ h]
    split <;> simp
  · intro a b ha ih vec
    rw [splitLoop_append_cons _ _ _ _ _ ha, splitLoop_append_cons _ _ _ _ _ ha, ih,
      ih (if a.isEmpty && ignoreEmpty then [] else [] ++ [a])]
    split <;> simp

theorem SplitString_of_not_mem (splitor : Char) (ignoreEmpty : Bool) (rest : List Char)
    (h : splitor ∉ rest) :
    SplitString rest splitor ignoreEmpty
      = if rest.isEmpty && ignoreEmpty then [] else [rest] := by
  unfold SplitString
  rw [splitLoop_of_not_mem _ _ _ _ h]
  split <;> simp

theorem SplitString_append_cons (splitor : Char) (ignoreEmpty : Bool) (a b : List Char)
    (h : splitor ∉ a) :
    SplitString (a ++ splitor :: b) splitor ignoreEmpty
      = (if a.isEmpty && ignoreEmpty then [] else [a])
          ++ SplitString b splitor ignoreEmpty := by
  unfold SplitString
  rw [splitLoop_append_cons _ _ _ _ _ h, splitLoop_acc]
  split <;> simp

theorem SplitString_eq_filter (str : List Char) (splitor : Char) :
    SplitString str splitor true
      = (SplitString str splitor false).filter (fun e => !e.isEmpty) := by
  revert str
  apply split_induction splitor
  · intro rest h
    rw [SplitString_of_not_mem _ _ _ h, SplitString_of_not_mem _ _ _ h]
    cases rest <;> simp
  · intro a b ha ih
    rw [SplitString_append_cons _ _ _ _ ha, SplitString_append_cons _ _ _ _ ha, ih]
    cases a <;> simp

theorem SplitString_length (str : List Char) (splitor : Char) :
    (SplitString str splitor false).length = str.count splitor + 1 := by
  revert str
  apply split_induction splitor
  · intro rest h
    rw [SplitString_of_not_mem _ _ _ h, List.count_eq_zero_of_not_mem h]
    simp
  · intro a b ha ih
    rw [SplitString_append_cons _ _ _ _ ha, List.count_append,
      List.count_eq_zero_of_not_mem ha, List.count_cons_self]
    simp only [Bool.and_false, Bool.false_eq_true, if_false, List.length_append,
      List.length_singleton, ih]
    omega

theorem SplitString_intercalate (str : List Char) (splitor : Char) :
    List.intercalate [splitor] (SplitString str splitor false) = str := by
  revert str
  apply split_induction splitor
  · intro rest h
    rw [SplitString_of_not_mem _ _ _ h]
    simp [List.intercalate]
  · intro a b ha ih
    rw [SplitString_append_cons _ _ _ _ ha]
    have hl := SplitString_length b splitor
    cases hs : SplitString b splitor false with
    | nil => rw [hs] at hl; simp at hl
    | cons y ys =>
      rw [hs] at ih
      simp only [Bool.and_false, Bool.false_eq_true, if_false, List.singleton_append]
      simp only [List.intercalate, List.intersperse, List.flatten_cons] at ih ⊢
      rw [ih]
      simp

theorem SplitString_not_mem (str : List Char) (splitor : Char) (ignoreEmpty : Bool) :
    ∀ e ∈ SplitString str splitor ignoreEmpty, splitor ∉ e := by
  revert str
  apply split_induction splitor
  · intro rest h e he
    rw [SplitString_of_not_mem _ _ _ h] at he
    split at he
    · simp at he
    · simp only [List.mem_singleton] at he
      rw [he]
      exact h
  · intro a b ha ih e he
    rw [SplitString_append_cons _ _ _ _ ha, List.mem_append] at he
    rcases he with he | he
    · split at he
      · simp at he
      · simp only [List.mem_singleton] at he
        rw [he]
        exact ha
    · exact ih e he

/-- C13: for every string and separator, `SplitString(str, splitor, true)` is
`SplitString(str, splitor, false)` with the empty elements removed, in the same order; in
particular no element of `SplitString(str, splitor, true)` is empty. -/
theorem SplitString_ignoreEmpty (str : List Char) (splitor : Char) :
    SplitString str splitor true
        = (SplitString str splitor false).filter (fun e => !e.isEmpty)
      ∧ ∀ e ∈ SplitString str splitor true, e ≠ [] := by
  refine ⟨SplitString_eq_filter str splitor, ?_⟩
  intro e he
  rw [SplitString_eq_filter, List.mem_filter] at he
  intro h
  rw [h] at he
  simp at he

/-- C14: for every string and separator, joining the elements of
`SplitString(str, splitor, false)` with the separator between consecutive elements gives
back `str`, and the number of elements is the number of occurrences of the separator in
`str` plus one; the empty string yields exactly one empty element. -/
theorem SplitString_join (str : List Char) (splitor : Char) :
    List.intercalate [splitor] (SplitString str splitor false) = str
      ∧ (SplitString str splitor false).length = str.count splitor + 1
      ∧ SplitString [] splitor false = [[]] :=
  ⟨SplitString_intercalate str splitor, SplitString_length str splitor,
    by rw [SplitString_of_not_mem _ _ _ (List.not_mem_nil _)]; rfl⟩

/-- C15: for every string, separator and value of `ignoreEmpty`, `SplitString` returns
(its loop is left after finitely many passes: the function is total), and no element of
its result contains the separator. -/
theorem SplitString_elements (str : List Char) (splitor : Char) (ignoreEmpty : Bool) :
    ∃ res, SplitString str splitor ignoreEmpty = res ∧ ∀ e ∈ res, splitor ∉ e :=
  ⟨SplitString str splitor ignoreEmpty, rfl, SplitString_not_mem str splitor ignoreEmpty⟩

/-! ## Verification of the empty-series behaviour and of the means -/

section MoreIntegrationProofs

variable {K : Type} [Field K] {r c : Nat}

theorem forLoop_error {σ : Type} (body : Nat → σ → Except Fault σ) (n i : Nat) (s : σ)
    (e : Fault) (hn : 0 < n) (hb : body i s = Except.error e) :
    forLoop body n i s = Except.error e := by
  cases n with
  | zero => exact absurd hn (Nat.lt_irrefl 0)
  | succ n => rw [forLoop, hb]

theorem TrapIntegrationTwice_nil :
    TrapIntegrationTwice ([] : List (K × Matrix (Fin r) (Fin c) K))
      = Except.error Fault.outOfRange := by
  unfold TrapIntegrationTwice
  rw [forLoop_error (twiceBody []) _ 0 ([], 0) Fault.outOfRange (by simp [sizeMinusOne])]
  simp only [twiceBody, vecAt_of_le [] (Nat.zero_le 0)]
  rfl

/-- C16: `TrapIntegrationTwice` fails with the out-of-range error if and only if the input
series is empty (its loop bound `data.size() - 1` wraps around to `2^64 - 1`, so that the
loop is entered and element 0 is accessed); for a single-sample series it returns the
zero matrix; `TrapIntegrationOnce` returns the zero matrix for the empty series. -/
theorem TrapIntegrationTwice_outOfRange_iff (data : List (K × Matrix (Fin r) (Fin c) K)) :
    (TrapIntegrationTwice data = Except.error Fault.outOfRange ↔ data = [])
      ∧ sizeMinusOne ([] : List (K × Matrix (Fin r) (Fin c) K)).length = 2 ^ 64 - 1
      ∧ (∀ x : K × Matrix (Fin r) (Fin c) K, TrapIntegrationTwice [x] = Except.ok 0)
      ∧ TrapIntegrationOnce ([] : List (K × Matrix (Fin r) (Fin c) K)) = Except.ok 0 := by
  refine ⟨⟨?_, ?_⟩, rfl, ?_, ?_⟩
  · intro h
    cases data with
    | nil => rfl
    | cons x xs =>
      rw [TrapIntegrationTwice_of_pos _ (by simp), TrapIntegrationOnce_eq] at h
      exact Except.noConfusion h
  · intro h
    rw [h]
    exact TrapIntegrationTwice_nil
  · intro x
    rw [TrapIntegrationTwice_of_pos _ (by simp), TrapIntegrationOnce_eq]
    simp [midpointSeries]
  · rw [TrapIntegrationOnce_eq]
    simp

theorem foldl_add_eq_sum_of_zero {M : Type} [AddCommMonoid M] (l : List M) :
    l.foldl (fun X item => X + item) 0 = l.sum := by
  rw [List.sum_eq_foldl]

theorem length_cast_eq_zero_iff [CharZero K] {α : Type} (l : List α) :
    ((l.length : K) = 0) ↔ l = [] := by
  rw [Nat.cast_eq_zero, List.length_eq_zero]

/-- C18: for every non-empty list of `n` elements (exact arithmetic over a field of
characteristic zero) `ComputeNumericalMean` and `ComputeMatVecMean` return the sum of the
elements divided by `n`, so that `n` times the result is the sum and the mean of `n`
copies of `x` is `x`; the divisor, the element count, is zero exactly when the list is
empty. -/
theorem Mean_eq_sum_div [CharZero K] (xs : List K) (ms : List (Matrix (Fin r) (Fin c) K)) :
    (xs ≠ [] → ComputeNumericalMean xs = xs.sum / (xs.length : K)
        ∧ (xs.length : K) * ComputeNumericalMean xs = xs.sum)
      ∧ (ms ≠ [] → ComputeMatVecMean ms = (1 / (ms.length : K)) • ms.sum
        ∧ (ms.length : K) • ComputeMatVecMean ms = ms.sum)
      ∧ (∀ (n : Nat) (x : K), 1 ≤ n → ComputeNumericalMean (List.replicate n x) = x)
      ∧ (∀ (n : Nat) (m : Matrix (Fin r) (Fin c) K), 1 ≤ n →
          ComputeMatVecMean (List.replicate n m) = m)
      ∧ (((xs.length : K) = 0) ↔ xs = [])
      ∧ (((ms.length : K) = 0) ↔ ms = []) := by
  have hnum : ∀ l : List K, ComputeNumericalMean l = l.sum / (l.length : K) := by
    intro l
    simp only [ComputeNumericalMean, foldl_add_eq_sum_of_zero]
  have hmat : ∀ l : List (Matrix (Fin r) (Fin c) K),
      ComputeMatVecMean l = (1 / (l.length : K)) • l.sum := by
    intro l
    ext i j
    simp only [ComputeMatVecMean, foldl_add_eq_sum_of_zero, Matrix.smul_apply, smul_eq_mul]
    rw [div_eq_mul_inv, one_div, mul_comm]
  refine ⟨?_, ?_, ?_, ?_, length_cast_eq_zero_iff xs, length_cast_eq_zero_iff ms⟩
  · intro hne
    have h0 : (xs.length : K) ≠ 0 := fun h => hne ((length_cast_eq_zero_iff xs).mp h)
    refine ⟨hnum xs, ?_⟩
    rw [hnum, mul_div_cancel₀ _ h0]
  · intro hne
    have h0 : (ms.length : K) ≠ 0 := fun h => hne ((length_cast_eq_zero_iff ms).mp h)
    refine ⟨hmat ms, ?_⟩
    rw [hmat, smul_smul, mul_one_div_cancel h0, one_smul]
  · intro n x hn
    have h0 : (n : K) ≠ 0 := Nat.cast_ne_zero.mpr (by omega)
    rw [hnum, List.sum_replicate, List.length_replicate, nsmul_eq_mul,
      mul_div_cancel_left₀ _ h0]
  · intro n m hn
    have h0 : (n : K) ≠ 0 := Nat.cast_ne_zero.mpr (by omega)
    rw [hmat, List.sum_replicate, List.length_replicate, ← Nat.cast_smul_eq_nsmul K n m,
      smul_smul, one_div_mul_cancel h0, one_smul]

/-- Witness for C18: the mean of `[1, 2, 6]` over the rationals is `3`. -/
theorem Mean_eq_sum_div_witness :
    ([1, 2, 6] : List ℚ) ≠ [] ∧ ComputeNumericalMean ([1, 2, 6] : List ℚ) = 3 :=
  have h := (Mean_eq_sum_div ([1, 2, 6] : List ℚ)
    ([] : List (Matrix (Fin 1) (Fin 1) ℚ))).1 (by simp)
  ⟨by simp, by rw [h.1]; norm_num⟩

theorem uniformSeries_getD (t0 h : K) (C : Matrix (Fin r) (Fin c) K) (N k : Nat)
    (hk : k ≤ N) :
    (uniformSeries t0 h C N).getD k (0, 0) = (t0 + (k : K) * h, C) := by
  have hk1 : k < N + 1 := by omega
  simp [uniformSeries, List.getD_eq_getElem?_getD, List.getElem?_range hk1]

theorem uniformSeries_trapezoid [CharZero K] (t0 h : K) (C : Matrix (Fin r) (Fin c) K)
    (N j : Nat) (hj : j < N) : trapezoid (uniformSeries t0 h C N) j = h • C := by
  simp only [trapezoid, timeAt, valueAt, uniformSeries_getD t0 h C N j (by omega),
    uniformSeries_getD t0 h C N (j + 1) (by omega)]
  rw [← two_smul K C, smul_smul]
  congr 1
  push_cast
  ring

theorem uniformSeries_midpoint_getD [CharZero K] (t0 h : K) (C : Matrix (Fin r) (Fin c) K)
    (N k : Nat) (hk : k < N) :
    (midpointSeries (uniformSeries t0 h C N)).getD k (0, 0)
      = (t0 + ((k : K) + 1 / 2) * h, (((k : K) + 1) * h) • C) := by
  have hlen : (uniformSeries t0 h C N).length - 1 = N := by simp [uniformSeries]
  have hsum : ∑ i ∈ Finset.range (k + 1), trapezoid (uniformSeries t0 h C N) i
      = (((k : K) + 1) * h) • C := by
    rw [Finset.sum_congr rfl (fun i hi =>
      uniformSeries_trapezoid t0 h C N i (by have := Finset.mem_range.mp hi; omega))]
    rw [Finset.sum_const, Finset.card_range, ← Nat.cast_smul_eq_nsmul K, smul_smul]
    push_cast
    rfl
  unfold midpointSeries
  rw [hlen]
  rw [List.getD_eq_getElem?_getD, List.getElem?_map, List.getElem?_range hk]
  simp only [Option.map_some', Option.getD_some, hsum, timeAt,
    uniformSeries_getD t0 h C N k (by omega), uniformSeries_getD t0 h C N (k + 1) (by omega)]
  congr 1
  push_cast
  ring

theorem sum_odd (h : K) (n : Nat) :
    ∑ i ∈ Finset.range n, h / 2 * ((((i : K) + 1) * h) + (((i : K) + 1 + 1) * h))
      = h ^ 2 * (((n : K) + 1) ^ 2 - 1) / 2 := by
  induction n with
  | zero => simp
  | succ n ih =>
    rw [Finset.sum_range_succ, ih]
    push_cast
    ring

theorem TrapIntegrationTwice_uniformSeries [CharZero K] (t0 h : K)
    (C : Matrix (Fin r) (Fin c) K) (n : Nat) :
    TrapIntegrationTwice (uniformSeries t0 h C (n + 1))
      = Except.ok ((h ^ 2 * (((n : K) + 1) ^ 2 - 1) / 2) • C) := by
  rw [TrapIntegrationTwice_of_pos _ (by simp [uniformSeries]), TrapIntegrationOnce_eq]
  have hlen : (midpointSeries (uniformSeries t0 h C (n + 1))).length - 1 = n := by
    simp [midpointSeries, uniformSeries]
  rw [hlen]
  have hterm : ∀ i ∈ Finset.range n,
      trapezoid (midpointSeries (uniformSeries t0 h C (n + 1))) i
        = (h / 2 * ((((i : K) + 1) * h) + (((i : K) + 1 + 1) * h))) • C := by
    intro i hi
    have hi1 : i < n := Finset.mem_range.mp hi
    simp only [trapezoid, timeAt, valueAt,
      uniformSeries_midpoint_getD t0 h C (n + 1) i (by omega),
      uniformSeries_midpoint_getD t0 h C (n + 1) (i + 1) (by omega)]
    rw [← add_smul, smul_smul]
    congr 1
    push_cast
    ring
  rw [Finset.sum_congr rfl hterm, ← Finset.sum_smul, sum_odd]

/-- C17: for every constant value `C`, start time `t0`, step `h` and `N >= 1`, on the
uniformly sampled constant series `[(t0 + k*h, C) for k = 0..N]` (exact arithmetic)
`TrapIntegrationTwice` returns `C * h^2 * (N^2 - 1) / 2`, which is the analytic double
integral `C * (N*h)^2 / 2` less `C * h^2 / 2`. -/
theorem TrapIntegrationTwice_uniform [CharZero K] (C : Matrix (Fin r) (Fin c) K)
    (t0 h : K) (N : Nat) (hN : 1 ≤ N) :
    TrapIntegrationTwice (uniformSeries t0 h C N)
        = Except.ok ((h ^ 2 * ((N : K) ^ 2 - 1) / 2) • C)
      ∧ (h ^ 2 * ((N : K) ^ 2 - 1) / 2) • C
        = (((N : K) * h) ^ 2 / 2) • C - (h ^ 2 / 2) • C := by
  constructor
  · obtain ⟨n, rfl⟩ : ∃ n, N = n + 1 := ⟨N - 1, by omega⟩
    rw [TrapIntegrationTwice_uniformSeries]
    push_cast
    rfl
  · rw [← sub_smul]
    congr 1
    ring

/-- Witness for C17: two unit intervals, the constant 3-vector of ones. -/
theorem TrapIntegrationTwice_uniform_witness :
    1 ≤ 2
      ∧ TrapIntegrationTwice
          (uniformSeries (0 : ℚ) 1 (constMat 1 : Matrix (Fin 3) (Fin 1) ℚ) 2)
        = Except.ok ((1 ^ 2 * (((2 : Nat) : ℚ) ^ 2 - 1) / 2)
            • (constMat 1 : Matrix (Fin 3) (Fin 1) ℚ)) :=
  ⟨by decide, (TrapIntegrationTwice_uniform (constMat 1) 0 1 2 (by decide)).1⟩

end MoreIntegrationProofs

/-! ## Verification of the loader registry -/

theorem IMUDataLoader_GetLoader_name (m : IMUModelType) :
    IMUDataLoader.GetLoader m.name = Except.ok ⟨m⟩ := by
  cases m <;> simp [IMUDataLoader.GetLoader, IMUModelType.name]

theorem RadarDataLoader_GetLoader_name (m : RadarModelType) :
    RadarDataLoader.GetLoader m.name = Except.ok ⟨m⟩ := by
  cases m <;> simp [RadarDataLoader.GetLoader, RadarModelType.name]

theorem IMUDataLoader_GetLoader_unknown (str : String)
    (h : ∀ m : IMUModelType, str ≠ m.name) :
    IMUDataLoader.GetLoader str = Except.error LoaderError.UnknownModel := by
  have h1 := h IMUModelType.SENSOR_IMU
  have h2 := h IMUModelType.SBG_IMU
  simp only [IMUModelType.name] at h1 h2
  simp [IMUDataLoader.GetLoader, IMUModelType.name, Ne.symm h1, Ne.symm h2]

theorem RadarDataLoader_GetLoader_unknown (str : String)
    (h : ∀ m : RadarModelType, str ≠ m.name) :
    RadarDataLoader.GetLoader str = Except.error LoaderError.UnknownModel := by
  have h1 := h RadarModelType.AINSTEIN_RADAR
  have h2 := h RadarModelType.AWR1843BOOST_RAW
  have h3 := h RadarModelType.AWR1843BOOST_CUSTOM
  have h4 := h RadarModelType.AWR1843BOOST_PC2_POSV
  have h5 := h RadarModelType.AWR1843BOOST_PC2_POSIV
  simp only [RadarModelType.name] at h1 h2 h3 h4 h5
  simp [RadarDataLoader.GetLoader, RadarModelType.name, Ne.symm h1, Ne.symm h2, Ne.symm h3,
    Ne.symm h4, Ne.symm h5]

/-- C12: for every supported model identifier (the names of the two `IMUModelType` values
and of the five `RadarModelType` values) `GetLoader` returns a loader whose reported model
(`GetIMUModel`, `GetRadarModel`) is the model named by the string; for every other string,
such as one that differs from a name only in case, `GetLoader` fails with
`UnknownModel`. -/
theorem GetLoader_resolves :
    (∀ m : IMUModelType, ∃ loader, IMUDataLoader.GetLoader m.name = Except.ok loader
        ∧ loader.GetIMUModel = m)
      ∧ (∀ m : RadarModelType, ∃ loader, RadarDataLoader.GetLoader m.name = Except.ok loader
        ∧ loader.GetRadarModel = m)
      ∧ (∀ str : String, (∀ m : IMUModelType, str ≠ m.name) →
          IMUDataLoader.GetLoader str = Except.error LoaderError.UnknownModel)
      ∧ (∀ str : String, (∀ m : RadarModelType, str ≠ m.name) →
          RadarDataLoader.GetLoader str = Except.error LoaderError.UnknownModel)
      ∧ IMUDataLoader.GetLoader "sbg_imu" = Except.error LoaderError.UnknownModel
      ∧ RadarDataLoader.GetLoader "Ainstein_Radar"
          = Except.error LoaderError.UnknownModel :=
  ⟨fun m => ⟨⟨m⟩, IMUDataLoader_GetLoader_name m, rfl⟩,
    fun m => ⟨⟨m⟩, RadarDataLoader_GetLoader_name m, rfl⟩,
    IMUDataLoader_GetLoader_unknown, RadarDataLoader_GetLoader_unknown,
    by simp [IMUDataLoader.GetLoader, IMUModelType.name],
    by simp [RadarDataLoader.GetLoader, RadarModelType.name]⟩


/-! ## Verification of the Karcher mean of a symmetric pair -/

section SymmetricPair

variable {K : Type} [LinearOrderedField K] {G : Type}

theorem squaredNorm_smul (s : K) (v : Fin 3 → K) :
    squaredNorm (s • v) = s * s * squaredNorm v := by
  simp only [squaredNorm, Pi.smul_apply, smul_eq_mul]
  ring

theorem normBelow_neg (v : Fin 3 → K) (tolerance : K) :
    normBelow (-v) tolerance ↔ normBelow v tolerance := by
  have h : squaredNorm (-v) = squaredNorm v := by
    simp only [squaredNorm, Pi.neg_apply]
    ring
  simp only [normBelow, h]

theorem normBelow_smul_of_half (v : Fin 3 → K) (halfTurn s : K)
    (h : normBelow v (halfTurn / 2)) (hs : s * s ≤ 4) : normBelow (s • v) halfTurn := by
  obtain ⟨hpos, hlt⟩ := h
  have hpi : 0 < halfTurn := by linarith
  refine ⟨hpi, ?_⟩
  rw [squaredNorm_smul]
  have h0 := squaredNorm_nonneg v
  have h4 : 4 * squaredNorm v < halfTurn * halfTurn := by
    have : halfTurn / 2 * (halfTurn / 2) = halfTurn * halfTurn / 4 := by ring
    rw [this] at hlt
    linarith
  have h5 : s * s * squaredNorm v ≤ 4 * squaredNorm v :=
    mul_le_mul_of_nonneg_right hs h0
  linarith

theorem exp_zero_of_laws {ops : SO3Ops G K} {halfTurn : K} {v : Fin 3 → K}
    (laws : SO3Laws ops halfTurn v) : ops.exp ((0 : K) • v) = ops.identity := by
  have h := laws.exp_add 0 0
  rw [add_zero] at h
  have h1 : ops.mul (ops.inverse (ops.exp ((0 : K) • v)))
      (ops.mul (ops.exp ((0 : K) • v)) (ops.exp ((0 : K) • v))) = ops.identity := by
    rw [h, laws.inverse_mul]
  rw [← laws.mul_assoc, laws.inverse_mul, laws.identity_mul] at h1
  exact h1

theorem symmetric_pair_facts {ops : SO3Ops G K} {halfTurn : K} {v : Fin 3 → K}
    (laws : SO3Laws ops halfTurn v) (hlt : normBelow v (halfTurn / 2)) (M : G) :
    averagedTangent ops [ops.mul M (ops.exp v), ops.mul M (ops.exp (-v))]
        (ops.mul M (ops.exp v)) = -v
      ∧ ops.mul (ops.mul M (ops.exp v)) (ops.exp (-v)) = M
      ∧ averagedTangent ops [ops.mul M (ops.exp v), ops.mul M (ops.exp (-v))] M = 0 := by
  have h1v : (1 : K) • v = v := one_smul K v
  have hnv : (-1 : K) • v = -v := neg_one_smul K v
  have hab : ops.mul (ops.exp v) (ops.exp (-v)) = ops.identity := by
    have h := laws.exp_add 1 (-1)
    rw [h1v, hnv, add_neg_cancel, exp_zero_of_laws laws] at h
    exact h
  have hbb : ops.mul (ops.exp (-v)) (ops.exp (-v)) = ops.exp ((-2 : K) • v) := by
    have h := laws.exp_add (-1) (-1)
    rw [hnv] at h
    rw [h]
    norm_num
  have hlogId : ops.log ops.identity = 0 := by
    have h := laws.log_exp 0 (normBelow_smul_of_half v halfTurn 0 hlt (by norm_num))
    rw [exp_zero_of_laws laws, zero_smul] at h
    exact h
  have hlogA : ops.log (ops.exp v) = v := by
    have h := laws.log_exp 1 (normBelow_smul_of_half v halfTurn 1 hlt (by norm_num))
    rw [h1v] at h
    exact h
  have hlogB : ops.log (ops.exp (-v)) = -v := by
    have h := laws.log_exp (-1) (normBelow_smul_of_half v halfTurn (-1) hlt (by norm_num))
    rw [hnv] at h
    exact h
  have hlogBB : ops.log (ops.exp ((-2 : K) • v)) = (-2 : K) • v :=
    laws.log_exp (-2) (normBelow_smul_of_half v halfTurn (-2) hlt (by norm_num))
  have hMb : ops.mul M (ops.exp (-v))
      = ops.mul (ops.mul M (ops.exp v)) (ops.mul (ops.exp (-v)) (ops.exp (-v))) := by
    rw [laws.mul_assoc, ← laws.mul_assoc (ops.exp v), hab, laws.identity_mul]
  have hX0b : ops.mul (ops.inverse (ops.mul M (ops.exp v))) (ops.mul M (ops.exp (-v)))
      = ops.exp ((-2 : K) • v) := by
    rw [hMb, ← laws.mul_assoc, laws.inverse_mul, laws.identity_mul, hbb]
  have hMx : ∀ x : G, ops.mul (ops.inverse M) (ops.mul M x) = x := by
    intro x
    rw [← laws.mul_assoc, laws.inverse_mul, laws.identity_mul]
  have h2 : (([ops.mul M (ops.exp v), ops.mul M (ops.exp (-v))] : List G).length : K) = 2 := by
    simp
  refine ⟨?_, ?_, ?_⟩
  · funext i
    simp only [averagedTangent, h2, tangentSum, List.foldl_cons, List.foldl_nil,
      laws.inverse_mul, hlogId, hX0b, hlogBB, zero_add, Pi.smul_apply, smul_eq_mul,
      Pi.neg_apply]
    ring
  · rw [laws.mul_assoc, hab, laws.mul_identity]
  · funext i
    simp only [averagedTangent, h2, tangentSum, List.foldl_cons, List.foldl_nil, hMx, hlogA,
      hlogB, zero_add, Pi.add_apply, Pi.neg_apply, add_neg_cancel, zero_div, Pi.zero_apply]

theorem symmetric_pair_returns {ops : SO3Ops G K} {halfTurn : K} {v : Fin 3 → K}
    (laws : SO3Laws ops halfTurn v) (M : G) (tolerance : K) (hpos : 0 < tolerance)
    (hge : ¬ normBelow v tolerance) (hlt : normBelow v (halfTurn / 2)) (fuel : Nat) :
    ComputeKarcherMean ops [ops.mul M (ops.exp v), ops.mul M (ops.exp (-v))] tolerance
      (fuel + 2) = some M := by
  obtain ⟨hA0, hup, hA1⟩ := symmetric_pair_facts laws hlt M
  have hn0 : ¬ normBelow (averagedTangent ops
      [ops.mul M (ops.exp v), ops.mul M (ops.exp (-v))] (ops.mul M (ops.exp v))) tolerance := by
    rw [hA0, normBelow_neg]
    exact hge
  have hn1 : normBelow (averagedTangent ops
      [ops.mul M (ops.exp v), ops.mul M (ops.exp (-v))] M) tolerance := by
    rw [hA1]
    exact normBelow_zero hpos
  have hu : karcherUpdate ops [ops.mul M (ops.exp v), ops.mul M (ops.exp (-v))]
      (ops.mul M (ops.exp v)) = M := by
    rw [karcherUpdate, hA0, hup]
  simp only [ComputeKarcherMean]
  rw [karcherLoop, if_neg hn0, hu, karcherLoop, if_pos hn1]

theorem axisOps_laws (halfTurn a : ℚ) : SO3Laws axisOps halfTurn ![0, 0, a] where
  mul_assoc := fun x y z => add_assoc x y z
  identity_mul := fun x => zero_add x
  mul_identity := fun x => add_zero x
  inverse_mul := fun x => neg_add_cancel x
  exp_add := fun s t => by
    simp only [axisOps, Pi.smul_apply, smul_eq_mul]
    ring
  log_exp := fun s _ => by
    funext i
    fin_cases i <;> simp [axisOps]

/-- C11 as stated fails: for the rotations by the angles 1 and -1 about the axis (`M` the
identity, `|v| = 1` below the quarter turn) and the tolerance 0, which is not above `|v|`,
`ComputeKarcherMean` has not returned after any number of loop iterations, although the
rotation laws hold. -/
theorem ComputeKarcherMean_symmetric_pair_zero_tolerance :
    SO3Laws axisOps 3 ![0, 0, 1]
      ∧ ¬ normBelow (![0, 0, 1] : Fin 3 → ℚ) 0
      ∧ normBelow (![0, 0, 1] : Fin 3 → ℚ) (3 / 2)
      ∧ ¬ ∃ fuel : Nat, ∃ X : ℚ,
          ComputeKarcherMean axisOps
            [axisOps.mul 0 (axisOps.exp ![0, 0, 1]), axisOps.mul 0 (axisOps.exp (-![0, 0, 1]))]
            (0 : ℚ) fuel = some X := by
  refine ⟨axisOps_laws 3 1, not_normBelow_of_nonpos _ (le_refl 0), ?_, ?_⟩
  · simp only [normBelow, squaredNorm]
    norm_num
  · rintro ⟨fuel, X, h⟩
    rw [ComputeKarcherMean_of_ne_nil axisOps _ (by simp),
      karcherLoop_none_of_nonpos axisOps _ (le_refl (0 : ℚ))] at h
    exact Option.noConfusion h

/-- C11 (amended): for every rotation `M` and tangent vector `v` with
`0 < tolerance <= |v| < pi/2` (`halfTurn` is pi, and the rotation laws `SO3Laws` hold along
`v`), `ComputeKarcherMean` of the two rotations `M*exp(v)` and `M*exp(-v)` returns exactly
the geodesic midpoint `M`: the first convergence test fails, the update gives `M`, and the
second test succeeds. -/
theorem ComputeKarcherMean_symmetric_pair (ops : SO3Ops G K) (halfTurn : K) (v : Fin 3 → K)
    (laws : SO3Laws ops halfTurn v) (M : G) (tolerance : K) (hpos : 0 < tolerance)
    (hge : ¬ normBelow v tolerance) (hlt : normBelow v (halfTurn / 2)) :
    ComputeKarcherMean ops [ops.mul M (ops.exp v), ops.mul M (ops.exp (-v))] tolerance 1
        = none
      ∧ ∀ fuel : Nat,
          ComputeKarcherMean ops [ops.mul M (ops.exp v), ops.mul M (ops.exp (-v))] tolerance
            (fuel + 2) = some M := by
  refine ⟨?_, symmetric_pair_returns laws M tolerance hpos hge hlt⟩
  obtain ⟨hA0, _, _⟩ := symmetric_pair_facts laws hlt M
  have hn0 : ¬ normBelow (averagedTangent ops
      [ops.mul M (ops.exp v), ops.mul M (ops.exp (-v))] (ops.mul M (ops.exp v))) tolerance := by
    rw [hA0, normBelow_neg]
    exact hge
  simp only [ComputeKarcherMean]
  rw [karcherLoop, if_neg hn0, karcherLoop]

/-- Witness for C11 (amended): the rotations by the angles `5 + 1` and `5 - 1` about the
axis, tolerance `1/2`; the function returns the rotation by the angle 5. -/
theorem ComputeKarcherMean_symmetric_pair_witness :
    SO3Laws axisOps 3 ![0, 0, 1]
      ∧ (0 : ℚ) < 1 / 2
      ∧ ¬ normBelow (![0, 0, 1] : Fin 3 → ℚ) (1 / 2)
      ∧ normBelow (![0, 0, 1] : Fin 3 → ℚ) (3 / 2)
      ∧ ComputeKarcherMean axisOps
          [axisOps.mul 5 (axisOps.exp ![0, 0, 1]), axisOps.mul 5 (axisOps.exp (-![0, 0, 1]))]
          (1 / 2 : ℚ) 2 = some 5 :=
  have hge : ¬ normBelow (![0, 0, 1] : Fin 3 → ℚ) (1 / 2) := by
    simp only [normBelow, squaredNorm]
    norm_num
  have hlt : normBelow (![0, 0, 1] : Fin 3 → ℚ) (3 / 2) := by
    simp only [normBelow, squaredNorm]
    norm_num
  ⟨axisOps_laws 3 1, by norm_num, hge, hlt,
    (ComputeKarcherMean_symmetric_pair axisOps 3 ![0, 0, 1] (axisOps_laws 3 1) 5 (1 / 2)
      (by norm_num) hge hlt).2 0⟩

end SymmetricPair

end ns_ris
